import Mathlib

/-!
# Verification of the multi-properties plugin core (`src/main.ts`)

A shallow embedding of the plugin's core logic:

* the property merge engine and frontmatter mutation helpers
  (imported by `main.ts` from `./frontmatter`, not part of the sources;
  those definitions are modelled from the spec and marked as such),
* the folder / file-list traversal drivers (`searchFolders`, `searchFiles`),
* the property-name collector (`getPropsFromFolder`, `getPropsFromFiles`),
* the template reader (`readYamlProperties` and its caller `createPropModal`),
* the tab-group file enumerator (`_getFilesFromTabGroup`),
* the command callbacks registered in `onload`, modelled as effect lists.

JavaScript specifics mirrored here: `await`-ing a rejected promise inside a
`for` loop aborts the loop and propagates the rejection (modelled with
`Except`); `Array.prototype.sort` is a stable sort, and with the comparator
`(a, b) => a.toLowerCase() > b.toLowerCase() ? 1 : -1` an element `a` stays
before `b` exactly when `a.toLowerCase() ≤ b.toLowerCase()`, so the call is
modelled with `List.mergeSort` over that relation.
-/

namespace MultiProp

/-- The closed set of host property types.
Modelled from the spec: `PropertyTypes` lives in `src/types/custom`, which is
not among the sources; the spec lists text, list, number, checkbox, date,
datetime, tags and multitext-like kinds. -/
inductive PropertyType where
  | text
  | list
  | number
  | checkbox
  | date
  | datetime
  | tags
  | multitext
  | aliases
deriving DecidableEq

/-- A frontmatter value: a scalar, a list of values, or null. -/
inductive Value where
  | str (s : String) : Value
  | num (n : Int) : Value
  | bool (b : Bool) : Value
  | list (items : List Value) : Value
  | null : Value

/-- A frontmatter mapping: property name / value pairs, in document order. -/
abbrev Frontmatter := List (String × Value)

/-- Merge mode for the add operation. -/
inductive MergeMode where
  | overwrite
  | append

/-- Strip a separator from the front of a character list, if it is there. -/
def dropPre : List Char → List Char → Option (List Char)
  | [], cs => some cs
  | _ :: _, [] => none
  | s :: ss, c :: cc => if c = s then dropPre ss cc else none

/-- The loop of `jsSplit`: scan the characters, closing the current token
whenever the separator occurs (leftmost match, then continue after it). -/
def jsSplitGo (sep : List Char) : List Char → List Char → List (List Char)
  | cs, acc =>
    match cs with
    | [] => [acc.reverse]
    | c :: cc =>
      match dropPre sep (c :: cc) with
      | some rest =>
        if _hlt : rest.length < (c :: cc).length then
          acc.reverse :: jsSplitGo sep rest []
        else
          jsSplitGo sep cc (c :: acc)
      | none => jsSplitGo sep cc (c :: acc)
  termination_by cs _ => cs.length

/-- JS `String.prototype.split` on a non-empty separator string: the tokens
between consecutive leftmost occurrences of the separator, keeping empty
tokens. -/
def jsSplit (s sep : String) : List String :=
  if sep = "" then [s]
  else (jsSplitGo sep.data s.data []).map List.asString

/-- Strip leading and trailing whitespace from a character list. -/
def trimChars (cs : List Char) : List Char :=
  ((cs.dropWhile Char.isWhitespace).reverse.dropWhile Char.isWhitespace).reverse

/-- JS `String.prototype.trim`. -/
def jsTrim (s : String) : String :=
  (trimChars s.data).asString

/-- JS `String.prototype.toLowerCase` (ASCII-adequate: lowercase every
character). -/
def jsToLower (s : String) : String :=
  (s.data.map Char.toLower).asString

/-- Split a raw textual value on the configured delimiter, trim each token,
and drop the tokens that are empty after trimming. -/
def splitTrim (s delim : String) : List String :=
  ((jsSplit s delim).map jsTrim).filter (fun t => t ≠ "")

/-- The list items contributed by an incoming value when merging into a
list-typed property: a textual value is split on the delimiter (trimmed,
empty tokens dropped), a list contributes its elements, null contributes
nothing, and any other scalar contributes itself as a single item. -/
def itemsOfValue (v : Value) (delim : String) : List Value :=
  match v with
  | .str s => (splitTrim s delim).map Value.str
  | .list items => items
  | .null => []
  | x => [x]

/-- Whether a property type is list-like (list, tags, multitext, aliases). -/
def isListLike (t : PropertyType) : Bool :=
  match t with
  | .list => true
  | .tags => true
  | .multitext => true
  | .aliases => true
  | _ => false

/-- Scalar coercion: a checkbox coerces a textual value to a boolean; other
scalar types pass the value through verbatim. -/
def scalarCoerce (v : Value) (t : PropertyType) : Value :=
  match t, v with
  | .checkbox, .str s => .bool (s = "true")
  | _, _ => v

/-- Type coercion of an incoming value to the target property type: a
list-like target collects the incoming items into a list, a scalar target
applies scalar coercion. -/
def coerceValue (v : Value) (t : PropertyType) (delim : String) : Value :=
  if isListLike t then .list (itemsOfValue v delim) else scalarCoerce v t

/-- Whether a current value counts as absent (missing or null). -/
def isAbsent (current : Option Value) : Bool :=
  match current with
  | none => true
  | some .null => true
  | some _ => false

/-- Modelled from the spec: the merge engine of `addProperties` in
`src/frontmatter.ts`, which is imported by `main.ts` but is not among the
sources. Overwrite mode yields the coerced incoming value; append mode
behaves as overwrite when the current value is absent or the target type is
scalar, and for a list-like target concatenates the current items with the
incoming items, without de-duplication. -/
def mergeValue (current : Option Value) (incoming : Value) (mode : MergeMode)
    (delim : String) (t : PropertyType) : Value :=
  match mode with
  | .overwrite => coerceValue incoming t delim
  | .append =>
    if isAbsent current then coerceValue incoming t delim
    else if isListLike t then
      .list (itemsOfValue (current.getD .null) delim ++ itemsOfValue incoming delim)
    else coerceValue incoming t delim

/-- Remove a single named key from a frontmatter mapping (JS `delete fm[n]`). -/
def removeKey (fm : Frontmatter) (n : String) : Frontmatter :=
  fm.filter (fun kv => kv.1 ≠ n)

/-- Modelled from the spec: `removeProperties` in `src/frontmatter.ts`, which
is imported by `main.ts` but is not among the sources. Deletes each named key
from the frontmatter mapping if present; absent keys are silently skipped. -/
def removeProperties (names : List String) (fm : Frontmatter) : Frontmatter :=
  names.foldl removeKey fm

/-- The property names of an optional frontmatter block (none for a file
without frontmatter). -/
def keysOfFm (fm : Option Frontmatter) : List String :=
  (fm.getD []).map Prod.fst

/-- Insert a name into an accumulator list acting as a set: kept once,
de-duplicated by exact string, first-seen casing preserved. -/
def insertName (names : List String) (n : String) : List String :=
  if n ∈ names then names else names ++ [n]

/-- Modelled from the spec: `addPropToSet` in `src/frontmatter.ts`, which is
imported by `main.ts` but is not among the sources. Reads the file's current
frontmatter keys and unions them into the accumulator set. -/
def addPropToSet (names : List String) (fm : Option Frontmatter) : List String :=
  (keysOfFm fm).foldl insertName names

/-- A vault file: path, extension, and its frontmatter block (none when the
file has no frontmatter). -/
structure VFile where
  path : String
  ext : String
  fm : Option Frontmatter

/-- A node of the host's file tree: a file or a folder with ordered children. -/
inductive Entry where
  | file (path : String) (ext : String) (fm : Option Frontmatter) : Entry
  | folder (children : List Entry) : Entry

/-- Plugin settings (`MultiPropSettings` in `src/SettingTab.ts`): overwrite
toggle, recursion toggle, delimiter, default-props template path. -/
structure MultiPropSettings where
  overwrite : Bool
  recursive : Bool
  delimiter : String
  defaultPropPath : String

/-- The default settings from `main.ts`. -/
def defaultSettings : MultiPropSettings :=
  { overwrite := false, recursive := true, delimiter := ",", defaultPropPath := "" }

/-- The loop of `getPropsFromFolder` (`main.ts:133`): for each child, a
markdown file's frontmatter keys are added to the set, and a subfolder is
recursed into exactly when the recursive setting is on. -/
def getPropsLoop (r : Bool) : List Entry → List String → List String
  | [], names => names
  | .file _ ext fm :: rest, names =>
    getPropsLoop r rest (if ext = "md" then addPropToSet names fm else names)
  | .folder cs :: rest, names =>
    getPropsLoop r rest (if r then getPropsLoop r cs names else names)

/-- Case-sensitive sort modelling JS `Array.prototype.sort()` without a
comparator on strings (`main.ts:144`). -/
def jsSortCS (l : List String) : List String :=
  l.mergeSort (fun a b => a ≤ b)

/-- `getPropsFromFolder` (`main.ts:133`): collect the property names under a
folder's children into the given set, then return them sorted. -/
def getPropsFromFolder (r : Bool) (children : List Entry) (names : List String) :
    List String :=
  jsSortCS (getPropsLoop r children names)

/-- `getPropsFromFiles` (`main.ts:147`): iterate a flat file list, adding the
frontmatter keys of each markdown file; folders and non-markdown entries are
skipped and nothing recurses. -/
def getPropsFromFiles : List Entry → List String → List String
  | [], names => names
  | .file _ ext fm :: rest, names =>
    getPropsFromFiles rest (if ext = "md" then addPropToSet names fm else names)
  | .folder _ :: rest, names => getPropsFromFiles rest names

/-- `searchFiles` (`main.ts:169`): iterate a flat file list, awaiting the
callback on each markdown file. A rejected callback propagates out of the
`await`, aborting the loop. Returns the list of visited file paths, in
order, together with the propagated rejection if any. -/
def searchFiles (cb : String → Except String Unit) :
    List Entry → List String × Option String
  | [] => ([], none)
  | .file p ext _ :: rest =>
    if ext = "md" then
      match cb p with
      | .ok _ =>
        let t := searchFiles cb rest
        (p :: t.1, t.2)
      | .error e => ([p], some e)
    else searchFiles cb rest
  | .folder _ :: rest => searchFiles cb rest

/-- `searchFolders` (`main.ts:156`): walk a folder's children in order,
recursing into subfolders when the recursive setting is on and awaiting the
callback on each markdown file. A rejected callback propagates out of the
`await`, aborting the walk. Returns the visited file paths in order together
with the propagated rejection if any. -/
def searchFolders (r : Bool) (cb : String → Except String Unit) :
    List Entry → List String × Option String
  | [] => ([], none)
  | .folder cs :: rest =>
    if r then
      match searchFolders r cb cs with
      | (v, none) =>
        let t := searchFolders r cb rest
        (v ++ t.1, t.2)
      | (v, some e) => (v, some e)
    else searchFolders r cb rest
  | .file p ext _ :: rest =>
    if ext = "md" then
      match cb p with
      | .ok _ =>
        let t := searchFolders r cb rest
        (p :: t.1, t.2)
      | .error e => ([p], some e)
    else searchFolders r cb rest

/-- The paths of the markdown files a full folder walk would visit, in walk
order, recursing into subfolders exactly when `r` is on. -/
def mdPathsFolders (r : Bool) : List Entry → List String
  | [] => []
  | .folder cs :: rest => (if r then mdPathsFolders r cs else []) ++ mdPathsFolders r rest
  | .file p ext _ :: rest => (if ext = "md" then [p] else []) ++ mdPathsFolders r rest

/-- The paths of the markdown files of a flat file list, in order; folders
are skipped entirely. -/
def mdPathsTop : List Entry → List String
  | [] => []
  | .folder _ :: rest => mdPathsTop rest
  | .file p ext _ :: rest => (if ext = "md" then [p] else []) ++ mdPathsTop rest

/-- The frontmatter property names of the markdown files reachable from a
child list, recursing into subfolders exactly when `r` is on (with
multiplicity; used only up to membership). This is the spec-side description
of what the name collector should gather. -/
def mdKeys (r : Bool) : List Entry → List String
  | [] => []
  | .folder cs :: rest => (if r then mdKeys r cs else []) ++ mdKeys r rest
  | .file _ ext fm :: rest => (if ext = "md" then keysOfFm fm else []) ++ mdKeys r rest

/-- Case-insensitive sort modelling JS
`[...names].sort((a, b) => a.toLowerCase() > b.toLowerCase() ? 1 : -1)`
(`main.ts:245`): a stable merge places `a` before `b` exactly when the
comparator is non-positive, i.e. when `a.toLowerCase() ≤ b.toLowerCase()`. -/
def jsSortCI (l : List String) : List String :=
  l.mergeSort (fun a b => jsToLower a ≤ jsToLower b)

/-- The host state the template reader consults: the vault's files and the
global property-name → type registry, keyed by lowercased property name
(`metadataCache.getAllPropertyInfos()`). -/
structure Host where
  vault : List VFile
  registry : List (String × PropertyType)

/-- `vault.getAbstractFileByPath` (`main.ts:202`): look a file up by path. -/
def getAbstractFileByPath (h : Host) (p : String) : Option VFile :=
  h.vault.find? (fun f => f.path = p)

/-- Look a lowercased property name up in the host's type registry. -/
def registryLookup (h : Host) (k : String) : Option PropertyType :=
  (h.registry.find? (fun kv => kv.1 = k)).map Prod.snd

/-- How the template read can fail: no file at the path (`getFileCache` on a
null file throws), a file without a frontmatter block (`readYamlProperties`
returns undefined and the caller throws), or a frontmatter key missing from
the type registry (`allPropsWithType[keyLower].type` throws). -/
inductive TemplateError where
  | templateNotFound : TemplateError
  | notAPropsTemplate : TemplateError
  | unknownKey (k : String) : TemplateError

/-- A name/value/type row prepopulating the add-properties dialog. -/
structure PropRow where
  name : String
  value : Value
  type : PropertyType

/-- The loop of `readYamlProperties` (`main.ts:265`): one row per frontmatter
key, its type fetched from the registry under the lowercased name; a key
absent from the registry throws at that point. -/
def rowsOf (h : Host) : Frontmatter → Except TemplateError (List PropRow)
  | [] => .ok []
  | (k, v) :: rest =>
    match registryLookup h (jsToLower k) with
    | none => .error (.unknownKey k)
    | some t =>
      match rowsOf h rest with
      | .ok rows => .ok (⟨k, v, t⟩ :: rows)
      | .error e => .error e

/-- `readYamlProperties` (`main.ts:252`) on an optional file: a missing file
fails (the metadata-cache access throws on a null file), a file without
frontmatter fails as not-a-props-template, and otherwise the frontmatter rows
are produced. -/
def readYamlProperties (h : Host) (file : Option VFile) :
    Except TemplateError (List PropRow) :=
  match file with
  | none => .error .templateNotFound
  | some f =>
    match f.fm with
    | none => .error .notAPropsTemplate
    | some fm => rowsOf h fm

/-- The template read of `createPropModal` (`main.ts:202`): resolve the
configured path with `.md` appended and read its frontmatter rows. -/
def readTemplate (h : Host) (p : String) : Except TemplateError (List PropRow) :=
  readYamlProperties h (getAbstractFileByPath h (p ++ ".md"))

/-- The single empty dialog row used when no default-props path is set. -/
def emptyRow : PropRow :=
  { name := "", value := .str "", type := .text }

/-- The `defaultProps` computation of `createPropModal` (`main.ts:197`): one
empty row when no default-props path is configured; the template's rows when
the read succeeds; the empty list when the read fails (the `catch` branch at
`main.ts:213` sets `defaultProps = []`). -/
def createPropModalDefaults (s : MultiPropSettings) (h : Host) : List PropRow :=
  if s.defaultPropPath = "" then [emptyRow]
  else
    match readTemplate h s.defaultPropPath with
    | .ok rows => rows
    | .error _ => []

/-- An observable effect of a command callback: a user notice, opening one of
the modals, or mutating a file's frontmatter. -/
inductive Effect where
  | notice (msg : String) : Effect
  | openPropModal (defaults : List PropRow) : Effect
  | openRemoveModal (names : List String) : Effect
  | mutate (path : String) : Effect

/-- The notices emitted while computing the dialog defaults: none when no
path is configured or the read succeeds; the internal
`readYamlProperties` notice plus the caller's catch-notice when the file has
no frontmatter; the caller's catch-notice alone for the other failures. -/
def templateNotices (s : MultiPropSettings) (h : Host) : List Effect :=
  if s.defaultPropPath = "" then []
  else
    match readTemplate h s.defaultPropPath with
    | .ok _ => []
    | .error .notAPropsTemplate =>
      [.notice "Not a valid Props template.",
       .notice "Check if you entered a valid path in the Default Props File setting."]
    | .error _ =>
      [.notice "Check if you entered a valid path in the Default Props File setting."]

/-- The effects of `createPropModal` (`main.ts:185`): template notices, then
the add-properties dialog opens with the computed default rows. Opening the
dialog mutates no file. -/
def createPropModalEffects (s : MultiPropSettings) (h : Host) : List Effect :=
  templateNotices s h ++ [.openPropModal (createPropModalDefaults s h)]

/-- The effects of `createRemoveModal` (`main.ts:227`) on a flat file list:
collect the removable names; when none were found emit one notice and stop
before opening anything; otherwise open the remove dialog with the names
sorted case-insensitively. -/
def createRemoveModalEffects (files : List Entry) : List Effect :=
  let names := getPropsFromFiles files []
  if names.length = 0 then [.notice "No properties to remove"]
  else [.openRemoveModal (jsSortCI names)]

/-- A workspace leaf: its parent tab container (by id, and whether it is a
`WorkspaceTabs`), its window root, whether its view is a `FileView`, and the
file it shows, if any. -/
structure Leaf where
  parentId : Nat
  parentIsTabs : Bool
  rootId : Nat
  isFileView : Bool
  file : Option VFile

/-- The workspace: all leaves, the active leaf, and the active file. -/
structure Workspace where
  leaves : List Leaf
  activeLeaf : Option Leaf
  activeFile : Option VFile

/-- One step of the push-unless-seen accumulation of `_getFilesFromTabGroup`
(`main.ts:52`): a candidate with no file is skipped, and a file whose path
was already collected is skipped. -/
def dedupStep (acc : List VFile) (f? : Option VFile) : List VFile :=
  match f? with
  | none => acc
  | some f => if acc.any (fun g => g.path = f.path) then acc else acc ++ [f]

/-- The de-duplicating collection of `_getFilesFromTabGroup` (`main.ts:44`). -/
def dedupByPath (cands : List (Option VFile)) : List VFile :=
  cands.foldl dedupStep []

/-- `_getFilesFromTabGroup` (`main.ts:39`): a null leaf yields no files;
otherwise the file-view leaves sharing the active leaf's tab container (or,
for a non-tabs parent, sharing its window root) contribute their files,
de-duplicated by path. -/
def getFilesFromTabGroup (ws : Workspace) (leaf : Option Leaf) : List VFile :=
  match leaf with
  | none => []
  | some l =>
    if l.parentIsTabs then
      dedupByPath
        ((ws.leaves.filter (fun m => m.parentId = l.parentId && m.isFileView)).map Leaf.file)
    else
      dedupByPath
        ((ws.leaves.filter (fun m => m.rootId = l.rootId && m.isFileView)).map Leaf.file)

/-- The `add-props-to-current-note` command callback (`main.ts:80`): with no
active file, one notice and nothing else; otherwise the add dialog flow. -/
def addToCurrentNoteEffects (ws : Workspace) (s : MultiPropSettings) (h : Host) :
    List Effect :=
  match ws.activeFile with
  | none => [.notice "No active file to add properties to."]
  | some _ => createPropModalEffects s h

/-- The `remove-props-from-current-note` command callback (`main.ts:93`):
with no active file, one notice and nothing else; otherwise the remove
dialog flow over the single active file. -/
def removeFromCurrentNoteEffects (ws : Workspace) : List Effect :=
  match ws.activeFile with
  | none => [.notice "No active file to remove properties from."]
  | some f => createRemoveModalEffects [Entry.file f.path f.ext f.fm]

/-- The `add-props-to-tab-group` command callback (`main.ts:106`): with no
files in the active tab group, one notice and nothing else; otherwise the
add dialog flow. -/
def addToTabGroupEffects (ws : Workspace) (s : MultiPropSettings) (h : Host) :
    List Effect :=
  let files := getFilesFromTabGroup ws ws.activeLeaf
  if files.length = 0 then
    [.notice "No open tabs in the active tab group to add properties to."]
  else createPropModalEffects s h

/-- The `remove-props-from-tab-group` command callback (`main.ts:119`): with
no files in the active tab group, one notice and nothing else; otherwise the
remove dialog flow over those files. -/
def removeFromTabGroupEffects (ws : Workspace) : List Effect :=
  let files := getFilesFromTabGroup ws ws.activeLeaf
  if files.length = 0 then
    [.notice "No open tabs in the active tab group to remove properties from."]
  else createRemoveModalEffects (files.map (fun f => Entry.file f.path f.ext f.fm))

/-- Whether an effect is a user notice. -/
def isNoticeEff (e : Effect) : Bool :=
  match e with
  | .notice _ => true
  | _ => false

/-- Whether an effect mutates a file's frontmatter. -/
def isMutateEff (e : Effect) : Bool :=
  match e with
  | .mutate _ => true
  | _ => false

/-! ## Helper lemmas -/

theorem removeProperties_eq_filter (names : List String) (fm : Frontmatter) :
    removeProperties names fm = fm.filter (fun kv => !names.contains kv.1) := by
  induction names generalizing fm with
  | nil => simp [removeProperties]
  | cons n ns ih =>
    show removeProperties ns (removeKey fm n) = _
    rw [ih, removeKey, List.filter_filter]
    refine List.filter_congr (fun kv _ => ?_)
    simp only [List.contains_cons, Bool.not_or, Bool.and_comm, decide_not]
    rfl

theorem mem_insertName {names : List String} {x n : String} :
    x ∈ insertName names n ↔ x ∈ names ∨ x = n := by
  unfold insertName
  by_cases h : n ∈ names
  · simp only [h, if_true]
    constructor
    · exact Or.inl
    · rintro (hx | rfl)
      · exact hx
      · exact h
  · simp [h]

theorem nodup_insertName {names : List String} (hn : names.Nodup) (n : String) :
    (insertName names n).Nodup := by
  unfold insertName
  by_cases h : n ∈ names
  · simpa [h] using hn
  · simp [h, List.nodup_append, hn]

theorem mem_addPropToSet {names : List String} {fm : Option Frontmatter} {x : String} :
    x ∈ addPropToSet names fm ↔ x ∈ names ∨ x ∈ keysOfFm fm := by
  unfold addPropToSet
  generalize keysOfFm fm = ks
  induction ks generalizing names with
  | nil => simp
  | cons k ks ih =>
    simp only [List.foldl_cons, ih, mem_insertName, List.mem_cons]
    tauto

theorem nodup_addPropToSet {names : List String} (hn : names.Nodup)
    (fm : Option Frontmatter) : (addPropToSet names fm).Nodup := by
  unfold addPropToSet
  generalize keysOfFm fm = ks
  induction ks generalizing names with
  | nil => simpa
  | cons k ks ih => exact ih (nodup_insertName hn k)

theorem mem_getPropsLoop (r : Bool) (es : List Entry) (names : List String)
    (x : String) : x ∈ getPropsLoop r es names ↔ x ∈ names ∨ x ∈ mdKeys r es := by
  induction es, names using getPropsLoop.induct r with
  | case1 names => simp [getPropsLoop, mdKeys]
  | case2 p ext fm rest names ih =>
    simp only [dite_eq_ite] at ih
    rw [getPropsLoop, mdKeys, ih]
    by_cases hmd : ext = "md"
    · simp only [hmd, if_true, mem_addPropToSet, List.mem_append]
      tauto
    · simp [hmd]
  | case3 cs rest names ihInner ihOuter =>
    simp only [dite_eq_ite] at ihOuter
    rw [getPropsLoop, mdKeys, ihOuter]
    cases r with
    | true =>
      simp only [if_pos rfl, ihInner, List.mem_append]
      tauto
    | false =>
      have hne : ¬(false = true) := by simp
      simp only [if_neg hne, List.nil_append]

theorem nodup_getPropsLoop (r : Bool) (es : List Entry) {names : List String}
    (hn : names.Nodup) : (getPropsLoop r es names).Nodup := by
  induction es, names using getPropsLoop.induct r with
  | case1 names => simpa [getPropsLoop] using hn
  | case2 p ext fm rest names ih =>
    rw [getPropsLoop]
    by_cases hmd : ext = "md"
    · exact ih (by simpa [hmd] using nodup_addPropToSet hn fm)
    · exact ih (by simpa [hmd] using hn)
  | case3 cs rest names ihInner ihOuter =>
    rw [getPropsLoop]
    by_cases hr : r
    · exact ihOuter (by simpa [hr] using ihInner hn)
    · exact ihOuter (by simpa [hr] using hn)

theorem nodup_getPropsFromFiles (es : List Entry) {names : List String}
    (hn : names.Nodup) : (getPropsFromFiles es names).Nodup := by
  induction es generalizing names with
  | nil => simpa [getPropsFromFiles]
  | cons e rest ih =>
    cases e with
    | file p ext fm =>
      rw [getPropsFromFiles]
      by_cases hmd : ext = "md"
      · exact ih (by simpa [hmd] using nodup_addPropToSet hn fm)
      · exact ih (by simpa [hmd] using hn)
    | folder cs => exact ih hn

theorem perm_jsSortCI (l : List String) : (jsSortCI l).Perm l :=
  List.mergeSort_perm l _

theorem perm_jsSortCS (l : List String) : (jsSortCS l).Perm l :=
  List.mergeSort_perm l _

theorem pairwise_jsSortCI (l : List String) :
    (jsSortCI l).Pairwise (fun a b => jsToLower a ≤ jsToLower b) := by
  have h := @List.sorted_mergeSort String
    (fun a b : String => decide (jsToLower a ≤ jsToLower b))
    (fun a b c hab hbc => by
      simp only [decide_eq_true_eq] at hab hbc ⊢
      exact le_trans hab hbc)
    (fun a b => by
      simp only [Bool.or_eq_true, decide_eq_true_eq]
      exact le_total (jsToLower a) (jsToLower b))
    l
  refine (List.Pairwise.imp ?_ h)
  intro a b hab
  simpa using hab

theorem nodup_dedupByPath_aux (cands : List (Option VFile)) (acc : List VFile)
    (hn : (acc.map VFile.path).Nodup) :
    ((cands.foldl dedupStep acc).map VFile.path).Nodup := by
  induction cands generalizing acc with
  | nil => simpa
  | cons c rest ih =>
    rw [List.foldl_cons]
    cases c with
    | none => exact ih acc hn
    | some f =>
      by_cases hseen : acc.any (fun g => g.path = f.path)
      · rw [show dedupStep acc (some f) = acc from by rw [dedupStep, if_pos hseen]]
        exact ih acc hn
      · rw [show dedupStep acc (some f) = acc ++ [f] from by rw [dedupStep, if_neg hseen]]
        refine ih _ ?_
        simp only [Bool.not_eq_true, List.any_eq_false, decide_eq_true_eq] at hseen
        simp only [List.map_append, List.map_cons, List.map_nil]
        rw [List.nodup_append]
        refine ⟨hn, List.nodup_singleton _, ?_⟩
        intro a ha hb
        simp only [List.mem_singleton] at hb
        subst hb
        obtain ⟨g, hg, hgp⟩ := List.mem_map.mp ha
        exact hseen g hg hgp

/-! ## Claim theorems -/

/-- Claim C1: for an append-mode add into a list-typed property whose current
value is a non-empty list `L`, the result is `L` concatenated with the
incoming items, in that order and without de-duplication; a textual incoming
value contributes the tokens obtained by splitting on the delimiter, trimming
each token and dropping the empty ones. -/
theorem appendMode_concatenates (L : List Value) (inc : Value) (d : String)
    (t : PropertyType) (hL : L ≠ []) (ht : isListLike t = true) :
    mergeValue (some (.list L)) inc .append d t = .list (L ++ itemsOfValue inc d)
    ∧ ∀ s, itemsOfValue (.str s) d
        = (((jsSplit s d).map jsTrim).filter (fun x => x ≠ "")).map Value.str := by
  constructor
  · simp [mergeValue, isAbsent, ht, itemsOfValue]
  · intro s
    rfl

/-- Witness for C1 at a concrete input: appending `"y,z"` to the list
`["x"]` with delimiter `","` yields `["x", "y", "z"]`. -/
theorem appendMode_concatenates_witness :
    (mergeValue (some (.list [Value.str "x"])) (Value.str "y,z") .append "," .list
      = .list ([Value.str "x"] ++ itemsOfValue (Value.str "y,z") ",")
    ∧ ∀ s, itemsOfValue (Value.str s) ","
        = (((jsSplit s ",").map jsTrim).filter (fun x => x ≠ "")).map Value.str)
    ∧ mergeValue (some (.list [Value.str "x"])) (Value.str "y,z") .append "," .list
      = .list [Value.str "x", Value.str "y", Value.str "z"] := by
  refine ⟨appendMode_concatenates [Value.str "x"] (Value.str "y,z") "," .list
    (by simp) rfl, ?_⟩
  simp [mergeValue, isAbsent, coerceValue, isListLike, itemsOfValue, splitTrim,
    jsSplit, jsSplitGo, dropPre, jsTrim, trimChars, List.asString]

/-- Claim C5: in overwrite mode the resulting value is the incoming value
coerced to the target property type, independently of the prior value. -/
theorem overwriteMode_replaces (cur cur' : Option Value) (inc : Value)
    (d : String) (t : PropertyType) :
    mergeValue cur inc .overwrite d t = coerceValue inc t d
    ∧ mergeValue cur inc .overwrite d t = mergeValue cur' inc .overwrite d t :=
  ⟨rfl, rfl⟩

/-- Claim C7: removing a name set twice leaves the frontmatter in the same
state as removing it once, and removing a name absent from the frontmatter
is a no-op. -/
theorem removeProperties_idempotent (names : List String) (fm : Frontmatter) :
    removeProperties names (removeProperties names fm) = removeProperties names fm
    ∧ ∀ n, (∀ kv ∈ fm, kv.1 ≠ n) → removeProperties [n] fm = fm := by
  constructor
  · rw [removeProperties_eq_filter, removeProperties_eq_filter, List.filter_filter]
    exact List.filter_congr (fun kv _ => by simp)
  · intro n habs
    rw [removeProperties_eq_filter]
    refine List.filter_eq_self.mpr ?_
    intro kv hkv
    simpa using habs kv hkv

/-- Witness for C7 at a concrete input: removing `"a"` is idempotent on
`[("b", "1")]`, and since `"a"` is absent the removal is a no-op. -/
theorem removeProperties_idempotent_witness :
    removeProperties ["a"] (removeProperties ["a"] [("b", Value.str "1")])
      = removeProperties ["a"] [("b", Value.str "1")]
    ∧ removeProperties ["a"] [("b", Value.str "1")] = [("b", Value.str "1")] :=
  ⟨(removeProperties_idempotent ["a"] [("b", Value.str "1")]).1,
   (removeProperties_idempotent ["a"] [("b", Value.str "1")]).2 "a"
     (by intro kv hkv; rw [List.mem_singleton] at hkv; subst hkv; simp)⟩

/-- Claim C6: the name collector over a folder's children returns, with the
recursive setting on, exactly the frontmatter property names of the markdown
files at every depth, and with it off exactly those of the top-level
markdown files (subfolders contribute nothing, per the definition of
`mdKeys false`). -/
theorem getPropsFromFolder_is_union (cs : List Entry) (x : String) :
    (x ∈ getPropsFromFolder true cs [] ↔ x ∈ mdKeys true cs)
    ∧ (x ∈ getPropsFromFolder false cs [] ↔ x ∈ mdKeys false cs) := by
  constructor <;>
  · rw [getPropsFromFolder, (perm_jsSortCS _).mem_iff, mem_getPropsLoop]
    simp

/-- Claim C9: the name list presented by the remove dialog — the collected
names sorted with the case-insensitive comparator — contains no duplicates,
is pairwise sorted by lowercased name, and is a permutation of the collected
names (so each name keeps its original casing). Both the file-list variant
and the folder variant of the collector are covered. -/
theorem removeModalNames_nodup_sorted (files : List Entry) (r : Bool)
    (cs : List Entry) :
    ((jsSortCI (getPropsFromFiles files [])).Nodup
      ∧ (jsSortCI (getPropsFromFiles files [])).Pairwise
          (fun a b => jsToLower a ≤ jsToLower b)
      ∧ (jsSortCI (getPropsFromFiles files [])).Perm (getPropsFromFiles files []))
    ∧ ((jsSortCI (getPropsFromFolder r cs [])).Nodup
      ∧ (jsSortCI (getPropsFromFolder r cs [])).Pairwise
          (fun a b => jsToLower a ≤ jsToLower b)
      ∧ (jsSortCI (getPropsFromFolder r cs [])).Perm (getPropsFromFolder r cs [])) := by
  refine ⟨⟨?_, pairwise_jsSortCI _, perm_jsSortCI _⟩,
          ⟨?_, pairwise_jsSortCI _, perm_jsSortCI _⟩⟩
  · exact ((perm_jsSortCI _).nodup_iff).mpr (nodup_getPropsFromFiles files List.nodup_nil)
  · refine ((perm_jsSortCI _).nodup_iff).mpr ?_
    rw [getPropsFromFolder]
    exact ((perm_jsSortCS _).nodup_iff).mpr (nodup_getPropsLoop r cs List.nodup_nil)

/-- Claim C10: the tab-group file list of a null leaf is empty, and for any
leaf the collected file list contains no two entries with the same path. -/
theorem tabGroupFiles_nodup (ws : Workspace) :
    getFilesFromTabGroup ws none = []
    ∧ ∀ l, ((getFilesFromTabGroup ws (some l)).map VFile.path).Nodup := by
  refine ⟨rfl, fun l => ?_⟩
  rw [getFilesFromTabGroup]
  by_cases hl : l.parentIsTabs
  · rw [if_pos hl, dedupByPath]
    exact nodup_dedupByPath_aux _ [] (by simp)
  · rw [if_neg hl, dedupByPath]
    exact nodup_dedupByPath_aux _ [] (by simp)

/-- Claim C8: a user-triggered batch operation whose resolved target set is
empty (no active file, or no open tabs in the active tab group), or whose
collected removable-property set is empty, produces exactly one notice,
mutates no file, and aborts before opening any dialog. -/
theorem emptySelection_one_notice (ws : Workspace) (s : MultiPropSettings)
    (h : Host) :
    (ws.activeFile = none →
      addToCurrentNoteEffects ws s h
        = [Effect.notice "No active file to add properties to."]
      ∧ ((addToCurrentNoteEffects ws s h).filter isNoticeEff).length = 1
      ∧ (addToCurrentNoteEffects ws s h).filter isMutateEff = [])
    ∧ (ws.activeFile = none →
      removeFromCurrentNoteEffects ws
        = [Effect.notice "No active file to remove properties from."]
      ∧ ((removeFromCurrentNoteEffects ws).filter isNoticeEff).length = 1
      ∧ (removeFromCurrentNoteEffects ws).filter isMutateEff = [])
    ∧ (getFilesFromTabGroup ws ws.activeLeaf = [] →
      addToTabGroupEffects ws s h
        = [Effect.notice "No open tabs in the active tab group to add properties to."]
      ∧ removeFromTabGroupEffects ws
        = [Effect.notice "No open tabs in the active tab group to remove properties from."]
      ∧ ((addToTabGroupEffects ws s h).filter isNoticeEff).length = 1
      ∧ (addToTabGroupEffects ws s h).filter isMutateEff = []
      ∧ ((removeFromTabGroupEffects ws).filter isNoticeEff).length = 1
      ∧ (removeFromTabGroupEffects ws).filter isMutateEff = [])
    ∧ (∀ files : List Entry, getPropsFromFiles files [] = [] →
      createRemoveModalEffects files = [Effect.notice "No properties to remove"]
      ∧ ((createRemoveModalEffects files).filter isNoticeEff).length = 1
      ∧ (createRemoveModalEffects files).filter isMutateEff = []) := by
  refine ⟨fun haf => ?_, fun haf => ?_, fun htab => ?_, fun files hnames => ?_⟩
  · simp [addToCurrentNoteEffects, haf, isNoticeEff, isMutateEff]
  · simp [removeFromCurrentNoteEffects, haf, isNoticeEff, isMutateEff]
  · simp [addToTabGroupEffects, removeFromTabGroupEffects, htab, isNoticeEff,
      isMutateEff]
  · simp [createRemoveModalEffects, hnames, isNoticeEff, isMutateEff]

/-- Witness for C8 at a concrete input: an empty workspace (no active file,
no leaves) and an empty file list. -/
theorem emptySelection_one_notice_witness :
    (addToCurrentNoteEffects ⟨[], none, none⟩ defaultSettings ⟨[], []⟩
      = [Effect.notice "No active file to add properties to."]
    ∧ ((addToCurrentNoteEffects ⟨[], none, none⟩ defaultSettings ⟨[], []⟩).filter
        isNoticeEff).length = 1
    ∧ (addToCurrentNoteEffects ⟨[], none, none⟩ defaultSettings ⟨[], []⟩).filter
        isMutateEff = [])
    ∧ (createRemoveModalEffects [] = [Effect.notice "No properties to remove"]
    ∧ ((createRemoveModalEffects []).filter isNoticeEff).length = 1
    ∧ (createRemoveModalEffects []).filter isMutateEff = []) :=
  ⟨(emptySelection_one_notice ⟨[], none, none⟩ defaultSettings ⟨[], []⟩).1 rfl,
   (emptySelection_one_notice ⟨[], none, none⟩ defaultSettings ⟨[], []⟩).2.2.2 [] rfl⟩

theorem rowsOf_ok (h : Host) (fm : Frontmatter)
    (hk : ∀ kv ∈ fm, (registryLookup h (jsToLower kv.1)).isSome) :
    rowsOf h fm
      = .ok (fm.map (fun kv =>
          ⟨kv.1, kv.2, (registryLookup h (jsToLower kv.1)).getD .text⟩)) := by
  induction fm with
  | nil => rfl
  | cons kv rest ih =>
    obtain ⟨k, v⟩ := kv
    obtain ⟨t, htk⟩ := Option.isSome_iff_exists.mp
      (hk (k, v) (List.mem_cons_self _ _))
    rw [rowsOf, htk, ih (fun kv hkv => hk kv (List.mem_cons_of_mem _ hkv))]
    simp [htk]

/-- Claim C4: when every frontmatter key of every vault file is registered
in the host's type registry (a host invariant of the global property-info
map), the template reader fails with `templateNotFound` exactly when no file
exists at the path, fails with `notAPropsTemplate` exactly when the file
exists but has no frontmatter block, and on a file with a frontmatter block
succeeds with one name/value/type row per key, the type obtained from the
registry under the lowercased name. -/
theorem readTemplate_characterization (h : Host) (p : String)
    (hreg : ∀ f ∈ h.vault, ∀ fm, f.fm = some fm →
      ∀ kv ∈ fm, (registryLookup h (jsToLower kv.1)).isSome) :
    (readTemplate h p = .error .templateNotFound
      ↔ getAbstractFileByPath h (p ++ ".md") = none)
    ∧ (readTemplate h p = .error .notAPropsTemplate
      ↔ ∃ f, getAbstractFileByPath h (p ++ ".md") = some f ∧ f.fm = none)
    ∧ (∀ f fm, getAbstractFileByPath h (p ++ ".md") = some f → f.fm = some fm →
      readTemplate h p
        = .ok (fm.map (fun kv =>
            ⟨kv.1, kv.2, (registryLookup h (jsToLower kv.1)).getD .text⟩))
      ∧ ∀ kv ∈ fm, registryLookup h (jsToLower kv.1)
          = some ((registryLookup h (jsToLower kv.1)).getD .text)) := by
  have hmem : ∀ f, getAbstractFileByPath h (p ++ ".md") = some f → f ∈ h.vault :=
    fun f hf => List.mem_of_find?_eq_some hf
  have hok : ∀ f fm, getAbstractFileByPath h (p ++ ".md") = some f →
      f.fm = some fm →
      readTemplate h p
        = .ok (fm.map (fun kv =>
            ⟨kv.1, kv.2, (registryLookup h (jsToLower kv.1)).getD .text⟩)) := by
    intro f fm hfind hfm
    have hk := hreg f (hmem f hfind) fm hfm
    rw [readTemplate, hfind]
    show readYamlProperties h (some f) = _
    rw [readYamlProperties]
    rw [show (match f.fm with
        | none => Except.error TemplateError.notAPropsTemplate
        | some fm => rowsOf h fm)
        = rowsOf h fm from by rw [hfm]]
    exact rowsOf_ok h fm hk
  refine ⟨?_, ?_, ?_⟩
  · cases hfind : getAbstractFileByPath h (p ++ ".md") with
    | none => simp [readTemplate, readYamlProperties, hfind]
    | some f =>
      cases hfm : f.fm with
      | none =>
        rw [readTemplate, hfind]
        show readYamlProperties h (some f) = _ ↔ _
        rw [readYamlProperties]
        rw [show (match f.fm with
            | none => Except.error TemplateError.notAPropsTemplate
            | some fm => rowsOf h fm)
            = Except.error TemplateError.notAPropsTemplate from by rw [hfm]]
        simp
      | some fm =>
        rw [hok f fm hfind hfm]
        simp
  · cases hfind : getAbstractFileByPath h (p ++ ".md") with
    | none => simp [readTemplate, readYamlProperties, hfind]
    | some f =>
      cases hfm : f.fm with
      | none =>
        rw [readTemplate, hfind]
        show readYamlProperties h (some f) = _ ↔ _
        rw [readYamlProperties]
        rw [show (match f.fm with
            | none => Except.error TemplateError.notAPropsTemplate
            | some fm => rowsOf h fm)
            = Except.error TemplateError.notAPropsTemplate from by rw [hfm]]
        simp [hfind, hfm]
      | some fm =>
        rw [hok f fm hfind hfm]
        simp [hfind, hfm]
  · intro f fm hfind hfm
    have hk := hreg f (hmem f hfind) fm hfm
    refine ⟨hok f fm hfind hfm, fun kv hkv => ?_⟩
    obtain ⟨t, htk⟩ := Option.isSome_iff_exists.mp (hk kv hkv)
    simp [htk]

/-- Witness for C4 at a concrete input: a one-file vault whose only
frontmatter key is registered; the read succeeds with the registered type. -/
theorem readTemplate_characterization_witness :
    readTemplate ⟨[⟨"T.md", "md", some [("tags", Value.str "x")]⟩],
        [("tags", PropertyType.tags)]⟩ "T"
      = .ok [⟨"tags", Value.str "x",
          ((registryLookup ⟨[⟨"T.md", "md", some [("tags", Value.str "x")]⟩],
            [("tags", PropertyType.tags)]⟩ (jsToLower "tags")).getD .text)⟩] :=
  ((readTemplate_characterization
      ⟨[⟨"T.md", "md", some [("tags", Value.str "x")]⟩],
        [("tags", PropertyType.tags)]⟩ "T"
      (by
        intro f hf fm hfm kv hkv
        simp only [List.mem_singleton] at hf
        subst hf
        simp only [Option.some_inj] at hfm
        subst hfm
        simp only [List.mem_singleton] at hkv
        subst hkv
        simp only [registryLookup]
        decide)).2.2
    ⟨"T.md", "md", some [("tags", Value.str "x")]⟩ [("tags", Value.str "x")]
    (by simp [getAbstractFileByPath]) rfl).1

theorem searchFiles_run (cb : String → Except String Unit) (es : List Entry) :
    ((searchFiles cb es).2 = none →
      (searchFiles cb es).1 = mdPathsTop es
      ∧ ∀ p ∈ mdPathsTop es, cb p = .ok ())
    ∧ ∀ e, (searchFiles cb es).2 = some e →
      ∃ pre p post, mdPathsTop es = pre ++ p :: post
        ∧ (searchFiles cb es).1 = pre ++ [p]
        ∧ cb p = .error e
        ∧ ∀ q ∈ pre, cb q = .ok () := by
  induction es with
  | nil =>
    refine ⟨fun _ => ⟨by simp [searchFiles, mdPathsTop], by simp [mdPathsTop]⟩,
      fun e he => ?_⟩
    simp [searchFiles] at he
  | cons c rest ihrest =>
    cases c with
    | folder cs =>
      have heq : searchFiles cb (Entry.folder cs :: rest) = searchFiles cb rest := by
        simp only [searchFiles]
      have hmd : mdPathsTop (Entry.folder cs :: rest) = mdPathsTop rest := by
        rw [mdPathsTop]
      rw [heq, hmd]
      exact ihrest
    | file p ext fm =>
      by_cases hext : ext = "md"
      · subst hext
        cases hcb : cb p with
        | ok a =>
          cases a
          have heq : searchFiles cb (Entry.file p "md" fm :: rest)
              = (p :: (searchFiles cb rest).1, (searchFiles cb rest).2) := by
            simp only [searchFiles, hcb, eq_self_iff_true, if_true]
          have hmd : mdPathsTop (Entry.file p "md" fm :: rest)
              = p :: mdPathsTop rest := by
            rw [mdPathsTop, if_pos rfl, List.singleton_append]
          rw [heq, hmd]
          constructor
          · intro hnone
            obtain ⟨hrest1, hrest2⟩ := ihrest.1 hnone
            refine ⟨by rw [hrest1], fun q hq => ?_⟩
            rcases List.mem_cons.mp hq with rfl | hq
            · exact hcb
            · exact hrest2 q hq
          · intro e herr
            obtain ⟨pre, q, post, hsplit, hvis, hcbq, hok⟩ := ihrest.2 e herr
            refine ⟨p :: pre, q, post, by rw [hsplit, List.cons_append],
              by rw [hvis, List.cons_append], hcbq, ?_⟩
            intro x hx
            rcases List.mem_cons.mp hx with rfl | hx
            · exact hcb
            · exact hok x hx
        | error e0 =>
          have heq : searchFiles cb (Entry.file p "md" fm :: rest)
              = ([p], some e0) := by
            simp only [searchFiles, hcb, eq_self_iff_true, if_true]
          have hmd : mdPathsTop (Entry.file p "md" fm :: rest)
              = p :: mdPathsTop rest := by
            rw [mdPathsTop, if_pos rfl, List.singleton_append]
          rw [heq, hmd]
          constructor
          · intro hnone
            simp at hnone
          · intro e herr
            simp only [Option.some_inj] at herr
            exact ⟨[], p, mdPathsTop rest, rfl, rfl, herr ▸ hcb, by simp⟩
      · have heq : searchFiles cb (Entry.file p ext fm :: rest)
            = searchFiles cb rest := by
          simp only [searchFiles, if_neg hext]
        have hmd : mdPathsTop (Entry.file p ext fm :: rest) = mdPathsTop rest := by
          rw [mdPathsTop, if_neg hext, List.nil_append]
        rw [heq, hmd]
        exact ihrest

theorem searchFolders_run (r : Bool) (cb : String → Except String Unit)
    (es : List Entry) :
    ((searchFolders r cb es).2 = none →
      (searchFolders r cb es).1 = mdPathsFolders r es
      ∧ ∀ p ∈ mdPathsFolders r es, cb p = .ok ())
    ∧ ∀ e, (searchFolders r cb es).2 = some e →
      ∃ pre p post, mdPathsFolders r es = pre ++ p :: post
        ∧ (searchFolders r cb es).1 = pre ++ [p]
        ∧ cb p = .error e
        ∧ ∀ q ∈ pre, cb q = .ok () := by
  induction es using searchFolders.induct r cb with
  | case1 =>
    refine ⟨fun _ => ⟨by simp [searchFolders, mdPathsFolders], by simp [mdPathsFolders]⟩,
      fun e he => ?_⟩
    simp [searchFolders] at he
  | case2 cs rest hr v hinner ihcs ihrest =>
    have heq : searchFolders r cb (Entry.folder cs :: rest)
        = (v ++ (searchFolders r cb rest).1, (searchFolders r cb rest).2) := by
      simp only [searchFolders, if_pos hr, hinner]
    have hmd : mdPathsFolders r (Entry.folder cs :: rest)
        = mdPathsFolders r cs ++ mdPathsFolders r rest := by
      rw [mdPathsFolders, if_pos hr]
    have hv : v = mdPathsFolders r cs ∧ ∀ p ∈ mdPathsFolders r cs, cb p = .ok () := by
      have hx := ihcs.1 (by rw [hinner])
      rw [hinner] at hx
      exact hx
    rw [heq, hmd]
    constructor
    · intro hnone
      obtain ⟨hrest1, hrest2⟩ := ihrest.1 hnone
      refine ⟨by rw [hv.1, hrest1], fun p hp => ?_⟩
      rcases List.mem_append.mp hp with hp | hp
      · exact hv.2 p hp
      · exact hrest2 p hp
    · intro e herr
      obtain ⟨pre, q, post, hsplit, hvis, hcb, hok⟩ := ihrest.2 e herr
      refine ⟨v ++ pre, q, post, ?_, ?_, hcb, ?_⟩
      · rw [hv.1, hsplit, List.append_assoc]
      · rw [hvis, List.append_assoc]
      · intro x hx
        rcases List.mem_append.mp hx with hx | hx
        · exact hv.2 x (hv.1 ▸ hx)
        · exact hok x hx
  | case3 cs rest hr v e0 hinner ihcs =>
    have heq : searchFolders r cb (Entry.folder cs :: rest) = (v, some e0) := by
      simp only [searchFolders, if_pos hr, hinner]
    have hmd : mdPathsFolders r (Entry.folder cs :: rest)
        = mdPathsFolders r cs ++ mdPathsFolders r rest := by
      rw [mdPathsFolders, if_pos hr]
    rw [heq, hmd]
    constructor
    · intro hnone
      simp at hnone
    · intro e herr
      simp only [Option.some_inj] at herr
      obtain ⟨pre, q, post, hsplit, hvis, hcb, hok⟩ := ihcs.2 e0 (by rw [hinner])
      rw [hinner] at hvis
      refine ⟨pre, q, post ++ mdPathsFolders r rest, ?_, hvis, herr ▸ hcb, hok⟩
      rw [hsplit]
      simp
  | case4 cs rest hr ihrest =>
    have heq : searchFolders r cb (Entry.folder cs :: rest)
        = searchFolders r cb rest := by
      simp only [searchFolders, if_neg hr]
    have hmd : mdPathsFolders r (Entry.folder cs :: rest)
        = mdPathsFolders r rest := by
      rw [mdPathsFolders, if_neg hr, List.nil_append]
    rw [heq, hmd]
    exact ihrest
  | case5 p fm rest a hcb ihrest =>
    cases a
    have heq : searchFolders r cb (Entry.file p "md" fm :: rest)
        = (p :: (searchFolders r cb rest).1, (searchFolders r cb rest).2) := by
      simp only [searchFolders, hcb, eq_self_iff_true, if_true]
    have hmd : mdPathsFolders r (Entry.file p "md" fm :: rest)
        = p :: mdPathsFolders r rest := by
      rw [mdPathsFolders, if_pos rfl, List.singleton_append]
    rw [heq, hmd]
    constructor
    · intro hnone
      obtain ⟨hrest1, hrest2⟩ := ihrest.1 hnone
      refine ⟨by rw [hrest1], fun q hq => ?_⟩
      rcases List.mem_cons.mp hq with rfl | hq
      · exact hcb
      · exact hrest2 q hq
    · intro e herr
      obtain ⟨pre, q, post, hsplit, hvis, hcbq, hok⟩ := ihrest.2 e herr
      refine ⟨p :: pre, q, post, by rw [hsplit, List.cons_append],
        by rw [hvis, List.cons_append], hcbq, ?_⟩
      intro x hx
      rcases List.mem_cons.mp hx with rfl | hx
      · exact hcb
      · exact hok x hx
  | case6 p fm rest e0 hcb =>
    have heq : searchFolders r cb (Entry.file p "md" fm :: rest)
        = ([p], some e0) := by
      simp only [searchFolders, hcb, eq_self_iff_true, if_true]
    have hmd : mdPathsFolders r (Entry.file p "md" fm :: rest)
        = p :: mdPathsFolders r rest := by
      rw [mdPathsFolders, if_pos rfl, List.singleton_append]
    rw [heq, hmd]
    constructor
    · intro hnone
      simp at hnone
    · intro e herr
      simp only [Option.some_inj] at herr
      exact ⟨[], p, mdPathsFolders r rest, rfl, rfl, herr ▸ hcb, by simp⟩
  | case7 p ext fm rest hext ihrest =>
    have heq : searchFolders r cb (Entry.file p ext fm :: rest)
        = searchFolders r cb rest := by
      simp only [searchFolders, if_neg hext]
    have hmd : mdPathsFolders r (Entry.file p ext fm :: rest)
        = mdPathsFolders r rest := by
      rw [mdPathsFolders, if_neg hext, List.nil_append]
    rw [heq, hmd]
    exact ihrest

/-- Claim C2 counterexample: with two markdown files in the list and a
callback that rejects on the first, the traversal visits only the first
file; the second file of the target set is never visited, refuting the
claim that every remaining file is still processed. -/
theorem traversal_counterexample :
    (searchFiles
        (fun p => if p = "a.md" then Except.error "write failed" else Except.ok ())
        [Entry.file "a.md" "md" none, Entry.file "b.md" "md" none]).1 = ["a.md"]
    ∧ (searchFiles
        (fun p => if p = "a.md" then Except.error "write failed" else Except.ok ())
        [Entry.file "a.md" "md" none, Entry.file "b.md" "md" none]).2
      = some "write failed"
    ∧ "b.md" ∈ mdPathsTop [Entry.file "a.md" "md" none, Entry.file "b.md" "md" none]
    ∧ "b.md" ∉ (searchFiles
        (fun p => if p = "a.md" then Except.error "write failed" else Except.ok ())
        [Entry.file "a.md" "md" none, Entry.file "b.md" "md" none]).1 := by
  refine ⟨rfl, rfl, by simp [mdPathsTop], by decide⟩

/-- Claim C2 (amended): the traversal drivers await the callback with no
per-file catch, so a rejection propagates and aborts the loop. For both the
file-list form and the folder form: when no callback rejects, every markdown
file of the target set is visited in order; when a callback first rejects on
file `p`, the files visited are exactly those preceding `p` in traversal
order plus `p` itself, and the remaining files are not visited. -/
theorem traversal_stops_at_first_rejection (cb : String → Except String Unit)
    (r : Bool) (es : List Entry) :
    ((searchFiles cb es).2 = none →
      (searchFiles cb es).1 = mdPathsTop es
      ∧ ∀ p ∈ mdPathsTop es, cb p = .ok ())
    ∧ (∀ e, (searchFiles cb es).2 = some e →
      ∃ pre p post, mdPathsTop es = pre ++ p :: post
        ∧ (searchFiles cb es).1 = pre ++ [p]
        ∧ cb p = .error e
        ∧ ∀ q ∈ pre, cb q = .ok ())
    ∧ ((searchFolders r cb es).2 = none →
      (searchFolders r cb es).1 = mdPathsFolders r es
      ∧ ∀ p ∈ mdPathsFolders r es, cb p = .ok ())
    ∧ (∀ e, (searchFolders r cb es).2 = some e →
      ∃ pre p post, mdPathsFolders r es = pre ++ p :: post
        ∧ (searchFolders r cb es).1 = pre ++ [p]
        ∧ cb p = .error e
        ∧ ∀ q ∈ pre, cb q = .ok ()) :=
  ⟨(searchFiles_run cb es).1, (searchFiles_run cb es).2,
   (searchFolders_run r cb es).1, (searchFolders_run r cb es).2⟩

/-- Witness for the amended C2 at a concrete input: the callback rejects on
`"a.md"`, so the visited list is the prefix up to and including `"a.md"`. -/
theorem traversal_stops_at_first_rejection_witness :
    ∃ pre p post,
      mdPathsTop [Entry.file "a.md" "md" none, Entry.file "b.md" "md" none]
        = pre ++ p :: post
      ∧ (searchFiles
          (fun q => if q = "a.md" then Except.error "write failed" else Except.ok ())
          [Entry.file "a.md" "md" none, Entry.file "b.md" "md" none]).1 = pre ++ [p]
      ∧ (fun q => if q = "a.md" then Except.error "write failed" else Except.ok ()) p
          = Except.error "write failed"
      ∧ ∀ q ∈ pre,
        (fun q => if q = "a.md" then Except.error "write failed" else Except.ok ()) q
          = Except.ok () :=
  (traversal_stops_at_first_rejection
      (fun q => if q = "a.md" then Except.error "write failed" else Except.ok ())
      true
      [Entry.file "a.md" "md" none, Entry.file "b.md" "md" none]).2.1
    "write failed" rfl

/-- Claim C3 counterexample: with a default-props path pointing at a file
that exists but has no frontmatter, the template read fails and
`createPropModal` computes `defaultProps = []` — zero rows, not the single
empty row the claim asserts. -/
theorem templateFallback_counterexample :
    readTemplate ⟨[⟨"T.md", "md", none⟩], []⟩ "T"
      = .error .notAPropsTemplate
    ∧ createPropModalDefaults ⟨false, true, ",", "T"⟩ ⟨[⟨"T.md", "md", none⟩], []⟩
      = []
    ∧ createPropModalDefaults ⟨false, true, ",", "T"⟩ ⟨[⟨"T.md", "md", none⟩], []⟩
      ≠ [emptyRow] :=
  ⟨rfl, rfl, fun hc => by simp [createPropModalDefaults, readTemplate,
    getAbstractFileByPath, readYamlProperties, emptyRow] at hc⟩

/-- Claim C3 (amended): on any failure of the template read (file missing at
the configured path, no frontmatter block, or an unregistered key), the
add-properties dialog still opens — the effects end with opening the modal —
but with zero prepopulated rows (`defaultProps = []`), not with one empty
row; the single empty row appears only when no default-props path is
configured. -/
theorem templateFallback_empty (s : MultiPropSettings) (h : Host)
    (hpath : s.defaultPropPath ≠ "") (e : TemplateError)
    (herr : readTemplate h s.defaultPropPath = .error e) :
    createPropModalDefaults s h = []
    ∧ createPropModalEffects s h
      = templateNotices s h ++ [Effect.openPropModal []]
    ∧ createPropModalDefaults ⟨s.overwrite, s.recursive, s.delimiter, ""⟩ h
      = [emptyRow] := by
  have hd : createPropModalDefaults s h = [] := by
    rw [createPropModalDefaults, if_neg hpath, herr]
  refine ⟨hd, ?_, rfl⟩
  rw [createPropModalEffects, hd]

/-- Witness for the amended C3 at a concrete input: the not-a-props-template
failure yields zero rows and the modal still opens. -/
theorem templateFallback_empty_witness :
    createPropModalDefaults ⟨false, true, ",", "T"⟩ ⟨[⟨"T.md", "md", none⟩], []⟩
      = []
    ∧ createPropModalEffects ⟨false, true, ",", "T"⟩ ⟨[⟨"T.md", "md", none⟩], []⟩
      = templateNotices ⟨false, true, ",", "T"⟩ ⟨[⟨"T.md", "md", none⟩], []⟩
        ++ [Effect.openPropModal []]
    ∧ createPropModalDefaults ⟨false, true, ",", ""⟩ ⟨[⟨"T.md", "md", none⟩], []⟩
      = [emptyRow] :=
  templateFallback_empty ⟨false, true, ",", "T"⟩ ⟨[⟨"T.md", "md", none⟩], []⟩
    (by simp) .notAPropsTemplate rfl

end MultiProp
